import Mathlib

/-!
# Connection::doBatchRPC (src/connection.h)

A shallow embedding of the batched RPC call of `Connection` and of the two
event handlers it installs (the `QNetworkReply::finished` handler of every
posted request and the `QTimer::timeout` handler of the poll timer), as a
step function on an explicit state.

Qt types are modelled by their observable content:
* `QMap<K, V>` is the list of its entries in ascending key order,
* `QJsonValue` / `QJsonDocument` are the JSON data they hold,
* `QJsonDocument::toJson` and `QJsonDocument::fromJson` (text serialisation
  and parsing) are parameters of the model.
-/

set_option linter.unusedSectionVars false

namespace SilentDragon

/-! ## Qt data types -/

/-- A `QString` as the list of its characters; the null string is the empty list. -/
abbrev QString := List Char

abbrev QByteArray := List UInt8

/-- The JSON value held by a `QJsonValue`; a double is kept as its 64-bit pattern. -/
inductive QJsonValue where
  | null
  | bool (b : Bool)
  | double (bits : Nat)
  | string (s : QString)
  | array (a : List QJsonValue)
  | object (o : List (QString × QJsonValue))
  | undefined

abbrev QJsonObject := List (QString × QJsonValue)

/-- Qt `QJsonObject::value(key)`: the value stored under `key`, `Undefined` when absent. -/
def QJsonObject.value (o : QJsonObject) (key : QString) : QJsonValue :=
  match o with
  | [] => QJsonValue.undefined
  | (k, v) :: rest => if k = key then v else QJsonObject.value rest key

/-- Qt `QJsonValue::toObject()`: the object held, the empty object for any other type. -/
def QJsonValue.toObject (v : QJsonValue) : QJsonObject :=
  match v with
  | QJsonValue.object o => o
  | _ => []

/-- Qt `QJsonValue::toString()`: the string held, the null string for any other type. -/
def QJsonValue.toString (v : QJsonValue) : QString :=
  match v with
  | QJsonValue.string s => s
  | _ => []

/-- Qt `QJsonValue::operator[](const QString&)`, that is `toObject().value(key)`. -/
def QJsonValue.index (v : QJsonValue) (key : QString) : QJsonValue :=
  QJsonObject.value v.toObject key

/-- The content of a `QJsonDocument`: nothing, an array or an object. -/
inductive QJsonDocument where
  | null
  | array (a : List QJsonValue)
  | object (o : QJsonObject)

/-- Qt `QJsonDocument::isEmpty()`: the document holds no data. -/
def QJsonDocument.isEmpty (d : QJsonDocument) : Bool :=
  match d with
  | QJsonDocument.null => true
  | _ => false

/-- Qt `QJsonDocument::operator[](const QString&)`: `object().value(key)`, `Undefined`
when the document is not an object. -/
def QJsonDocument.index (d : QJsonDocument) (key : QString) : QJsonValue :=
  match d with
  | QJsonDocument.object o => QJsonObject.value o key
  | _ => QJsonValue.undefined

/-- Qt `QNetworkReply::NoError`. -/
def NoError : Nat := 0

/-- What a finished `QNetworkReply` exposes to the handler: `error()` and `readAll()`. -/
structure QNetworkReply where
  error : Nat
  all : QByteArray
  deriving DecidableEq

/-! ## QMap -/

/-- Qt `QMap<K, V>` as the list of its entries, in ascending key order. -/
abbrev QMap (K V : Type) := List (K × V)

namespace QMap

variable {K V : Type}

/-- Qt `QMap::size()`. -/
def size (m : QMap K V) : Nat := List.length m

/-- Qt `QMap::keys()`. -/
def keys (m : QMap K V) : List K := List.map Prod.fst m

/-- The assignment `m[k] = v`: the entry under `k` is created at its place in key order,
or its value is replaced when a key equivalent to `k` is present. -/
def insert [LinearOrder K] (m : QMap K V) (k : K) (v : V) : QMap K V :=
  match m with
  | [] => [(k, v)]
  | (k', v') :: rest =>
    if k < k' then (k, v) :: (k', v') :: rest
    else if k' < k then (k', v') :: insert rest k v
    else (k, v) :: rest

/-- Qt `QMap::constFind(k)` as an option: the value under `k`, when there is one. -/
def find [DecidableEq K] (m : QMap K V) (k : K) : Option V :=
  match m with
  | [] => none
  | (k', v') :: rest => if k = k' then some v' else find rest k

end QMap

/-! ## State -/

/-- State of the `QTimer` a batch allocates. -/
inductive TimerState where
  | notCreated
  | running
  | stopped
  deriving DecidableEq

/-- What a call of `doBatchRPC` finds: the connection's shutdown flag, the function-static
`inProgress` table, and the bodies handed to `restclient->post` so far (oldest first). -/
structure World where
  shutdownInProgress : Bool
  inProgress : QMap QString Bool
  posted : List QByteArray

/-- The world together with what the closures of one `doBatchRPC` call capture:
`items[i]` is the `item` of the reply handler of the i-th posted request,
`cbCalls` lists the maps `cb` was invoked with. `totalSize` and `QMap::size()` are `int` in
the source; container sizes never leave that range, so they are natural numbers here. -/
structure State (T : Type) where
  shutdownInProgress : Bool
  inProgress : QMap QString Bool
  posted : List QByteArray
  items : List T
  totalSize : Nat
  method : QString
  responses : QMap T QJsonValue
  waitTimer : TimerState
  cbCalls : List (QMap T QJsonValue)

/-- Events of the Qt event loop that reach the closures of one batch. -/
inductive Event where
  | finished (i : Nat) (reply : QNetworkReply)
  | timeout
  | shutdown
  deriving DecidableEq

variable {T : Type} [LinearOrder T]

/-- One iteration of the dispatch loop of `doBatchRPC` (the `for (auto item: payloads)` body). -/
def dispatch (toJson : QJsonDocument → QByteArray) (payloadGenerator : T → QJsonValue)
    (method : QString) (w : World) (item : T) : World :=
  let payload := payloadGenerator item
  let inProgress := QMap.insert w.inProgress method true
  let jd_rpc_call := QJsonDocument.object payload.toObject
  let ba_rpc_call := toJson jd_rpc_call
  { w with inProgress := inProgress, posted := w.posted ++ [ba_rpc_call] }

/-- The body of `Connection::doBatchRPC`, up to its return. -/
def doBatchRPC (toJson : QJsonDocument → QByteArray) (w : World) (payloads : List T)
    (payloadGenerator : T → QJsonValue) : State T :=
  let responses : QMap T QJsonValue := []
  let totalSize := payloads.length
  match payloads with
  | [] =>
    { shutdownInProgress := w.shutdownInProgress, inProgress := w.inProgress,
      posted := w.posted, items := [], totalSize := totalSize, method := [],
      responses := responses, waitTimer := TimerState.notCreated, cbCalls := [] }
  | first :: _ =>
    let method := ((payloadGenerator first).index "method".toList).toString
    let w' := payloads.foldl (dispatch toJson payloadGenerator method) w
    { shutdownInProgress := w'.shutdownInProgress, inProgress := w'.inProgress,
      posted := w'.posted, items := payloads, totalSize := totalSize, method := method,
      responses := responses, waitTimer := TimerState.running, cbCalls := [] }

/-- The `QNetworkReply::finished` handler of the i-th posted request, which captured
`item = payloads[i]`; an index beyond the posted requests has no handler. -/
def onFinished (fromJson : QByteArray → QJsonDocument) (s : State T) (i : Nat)
    (reply : QNetworkReply) : State T :=
  match s.items[i]? with
  | none => s
  | some item =>
    if s.shutdownInProgress then s
    else
      let all := reply.all
      let parsed := fromJson all
      if reply.error ≠ NoError then
        { s with responses := QMap.insert s.responses item QJsonValue.null }
      else if parsed.isEmpty then
        { s with responses := QMap.insert s.responses item QJsonValue.null }
      else
        { s with responses := QMap.insert s.responses item (parsed.index "result".toList) }

/-- The `QTimer::timeout` handler of `waitTimer`; a timer that is not active does not fire. -/
def onTimeout (s : State T) : State T :=
  if s.waitTimer ≠ TimerState.running then s
  else if s.shutdownInProgress then
    { s with waitTimer := TimerState.stopped }
  else if QMap.size s.responses = s.totalSize then
    { s with waitTimer := TimerState.stopped,
             cbCalls := s.cbCalls ++ [s.responses],
             inProgress := QMap.insert s.inProgress s.method false }
  else s

/-- Modelled from the spec: the body of `Connection::shutdown()` is not in the header;
it sets the shutdown flag, which is never cleared. -/
def onShutdown (s : State T) : State T :=
  { s with shutdownInProgress := true }

def step (fromJson : QByteArray → QJsonDocument) (s : State T) (e : Event) : State T :=
  match e with
  | Event.finished i reply => onFinished fromJson s i reply
  | Event.timeout => onTimeout s
  | Event.shutdown => onShutdown s

def run (fromJson : QByteArray → QJsonDocument) (s : State T) (es : List Event) : State T :=
  es.foldl (step fromJson) s

/-- The replies that finish in a trace, each with the index of its request, in arrival order. -/
def arrivals (es : List Event) : List (Nat × QNetworkReply) :=
  es.filterMap (fun e => match e with
    | Event.finished i reply => some (i, reply)
    | _ => none)

/-- Keys in strictly ascending order: the representation invariant of a `QMap`. -/
def QMap.Sorted {K V : Type} [LinearOrder K] (m : QMap K V) : Prop :=
  List.Pairwise (fun a b => a < b) (QMap.keys m)

/-- The outcome of one reply, in the words of the specification: the empty JSON value when
the reply has a transport error or when its body parses to an empty document, otherwise the
`result` field of the parsed body. -/
def replyOutcome (fromJson : QByteArray → QJsonDocument) (reply : QNetworkReply) : QJsonValue :=
  if reply.error = NoError ∧ (fromJson reply.all).isEmpty = false then
    (fromJson reply.all).index "result".toList
  else QJsonValue.null

/-- No call of `Connection::shutdown()` in a trace. -/
def NoShutdown (es : List Event) : Prop := Event.shutdown ∉ es

instance (es : List Event) : Decidable (NoShutdown es) := by
  unfold NoShutdown
  infer_instance

/-- Invariant of the states of one batch. -/
structure Inv (s : State T) : Prop where
  sorted : QMap.Sorted s.responses
  keys_sub : ∀ k ∈ QMap.keys s.responses, k ∈ s.items
  total : s.totalSize = s.items.length
  running_cb : s.waitTimer = TimerState.running → s.cbCalls = []
  cb_le : s.cbCalls.length ≤ 1
  cb_map : ∀ m ∈ s.cbCalls, QMap.Sorted m ∧ (∀ k ∈ QMap.keys m, k ∈ s.items) ∧
    QMap.size m = s.items.length

/-! ## A concrete setting, used to exercise the theorems -/

/-- A stand-in serialiser: one byte per member of the top-level object. -/
def exToJson (d : QJsonDocument) : QByteArray :=
  match d with
  | QJsonDocument.object o => o.map (fun _ => (1 : UInt8))
  | _ => []

/-- A stand-in parser: no bytes parse to the empty document, anything else to an object
whose `result` is `true`. -/
def exFromJson (b : QByteArray) : QJsonDocument :=
  match b with
  | [] => QJsonDocument.null
  | _ => QJsonDocument.object [("result".toList, QJsonValue.bool true)]

/-- A payload generator: a `z_getbalance` call for every item. -/
def exGen (_ : Nat) : QJsonValue :=
  QJsonValue.object [("method".toList, QJsonValue.string "z_getbalance".toList)]

/-- A fresh world: no shutdown, empty `inProgress`, nothing posted. -/
def exWorld : World := ⟨false, [], []⟩

/-- A successful reply with a non-empty body. -/
def exReply : QNetworkReply := ⟨NoError, [123]⟩

/-- A reply with a transport error. -/
def exError : QNetworkReply := ⟨1, []⟩

/-! ## QMap lemmas -/

section QMapLemmas

variable {K V : Type} [LinearOrder K]

theorem QMap.mem_keys_insert (m : QMap K V) (k : K) (v : V) (x : K) :
    x ∈ QMap.keys (QMap.insert m k v) ↔ x = k ∨ x ∈ QMap.keys m := by
  induction m with
  | nil => simp [QMap.insert, QMap.keys]
  | cons hd rest ih =>
    obtain ⟨k', v'⟩ := hd
    unfold QMap.insert
    by_cases h1 : k < k'
    · simp [h1, QMap.keys]
    · by_cases h2 : k' < k
      · simp only [h1, h2, if_true, if_false]
        simp only [QMap.keys, List.map_cons, List.mem_cons] at ih ⊢
        rw [ih]
        tauto
      · have hk : k = k' := le_antisymm (not_lt.mp h2) (not_lt.mp h1)
        subst hk
        simp [h1, QMap.keys]

theorem QMap.sorted_insert (m : QMap K V) (k : K) (v : V) (h : QMap.Sorted m) :
    QMap.Sorted (QMap.insert m k v) := by
  induction m with
  | nil => simp [QMap.insert, QMap.Sorted, QMap.keys]
  | cons hd rest ih =>
    obtain ⟨k', v'⟩ := hd
    have hs : (∀ x ∈ QMap.keys rest, k' < x) ∧ QMap.Sorted rest := by
      simpa [QMap.Sorted, QMap.keys] using h
    unfold QMap.insert
    by_cases h1 : k < k'
    · simp only [h1, if_true]
      have : QMap.keys ((k, v) :: (k', v') :: rest) = k :: k' :: QMap.keys rest := rfl
      unfold QMap.Sorted
      rw [this, List.pairwise_cons]
      refine ⟨?_, h⟩
      intro x hx
      rcases List.mem_cons.mp hx with rfl | hx
      · exact h1
      · exact lt_trans h1 (hs.1 x hx)
    · by_cases h2 : k' < k
      · simp only [h1, h2, if_true, if_false]
        have : QMap.keys ((k', v') :: QMap.insert rest k v)
            = k' :: QMap.keys (QMap.insert rest k v) := rfl
        unfold QMap.Sorted
        rw [this, List.pairwise_cons]
        refine ⟨?_, ih hs.2⟩
        intro x hx
        rcases (QMap.mem_keys_insert rest k v x).mp hx with rfl | hx
        · exact h2
        · exact hs.1 x hx
      · have hk : k = k' := le_antisymm (not_lt.mp h2) (not_lt.mp h1)
        subst hk
        simp only [h1, if_false]
        exact h

theorem QMap.find_insert [DecidableEq K] (m : QMap K V) (k : K) (v : V) (x : K) :
    QMap.find (QMap.insert m k v) x = if x = k then some v else QMap.find m x := by
  induction m with
  | nil => simp [QMap.insert, QMap.find]
  | cons hd rest ih =>
    obtain ⟨k', v'⟩ := hd
    unfold QMap.insert
    by_cases h1 : k < k'
    · simp [h1, QMap.find]
    · by_cases h2 : k' < k
      · simp only [h1, h2, if_true, if_false]
        unfold QMap.find
        rw [ih]
        by_cases hx : x = k
        · subst hx
          simp [ne_of_gt h2]
        · simp [hx]
      · have hk : k = k' := le_antisymm (not_lt.mp h2) (not_lt.mp h1)
        subst hk
        simp only [h1, if_false]
        unfold QMap.find
        by_cases hx : x = k <;> simp [hx]

theorem QMap.find_eq_none_iff [DecidableEq K] (m : QMap K V) (x : K) :
    QMap.find m x = none ↔ x ∉ QMap.keys m := by
  induction m with
  | nil => simp [QMap.find, QMap.keys]
  | cons hd rest ih =>
    obtain ⟨k', v'⟩ := hd
    unfold QMap.find
    by_cases hx : x = k'
    · simp [hx, QMap.keys]
    · simp only [hx, if_false, ih]
      simp [QMap.keys, hx]

theorem QMap.sorted_nodup (m : QMap K V) (h : QMap.Sorted m) : (QMap.keys m).Nodup := by
  unfold QMap.Sorted at h
  exact h.imp (fun hab => ne_of_lt hab)

theorem QMap.ext_of_sorted [DecidableEq K] (m₁ m₂ : QMap K V) (h₁ : QMap.Sorted m₁) (h₂ : QMap.Sorted m₂)
    (h : ∀ x, QMap.find m₁ x = QMap.find m₂ x) : m₁ = m₂ := by
  induction m₁ generalizing m₂ with
  | nil =>
    cases m₂ with
    | nil => rfl
    | cons hd rest =>
      have := h hd.1
      simp [QMap.find] at this
  | cons hd₁ rest₁ ih =>
    obtain ⟨k₁, v₁⟩ := hd₁
    cases m₂ with
    | nil =>
      have := h k₁
      simp [QMap.find] at this
    | cons hd₂ rest₂ =>
      obtain ⟨k₂, v₂⟩ := hd₂
      have hs₁ : (∀ x ∈ QMap.keys rest₁, k₁ < x) ∧ QMap.Sorted rest₁ := by
        simpa [QMap.Sorted, QMap.keys] using h₁
      have hs₂ : (∀ x ∈ QMap.keys rest₂, k₂ < x) ∧ QMap.Sorted rest₂ := by
        simpa [QMap.Sorted, QMap.keys] using h₂
      have hn₁ : QMap.find rest₁ k₁ = none :=
        (QMap.find_eq_none_iff rest₁ k₁).mpr (fun hm => lt_irrefl _ (hs₁.1 k₁ hm))
      have hn₂ : QMap.find rest₂ k₂ = none :=
        (QMap.find_eq_none_iff rest₂ k₂).mpr (fun hm => lt_irrefl _ (hs₂.1 k₂ hm))
      have hk : k₁ = k₂ := by
        by_contra hne
        have e₁ := h k₁
        have e₂ := h k₂
        simp only [QMap.find, if_true, if_neg hne, if_neg (Ne.symm hne)] at e₁ e₂
        have m₁ : k₁ ∈ QMap.keys rest₂ := by
          by_contra hc
          rw [(QMap.find_eq_none_iff rest₂ k₁).mpr hc] at e₁
          cases e₁
        have m₂ : k₂ ∈ QMap.keys rest₁ := by
          by_contra hc
          rw [(QMap.find_eq_none_iff rest₁ k₂).mpr hc] at e₂
          cases e₂
        exact lt_asymm (hs₂.1 k₁ m₁) (hs₁.1 k₂ m₂)
      subst hk
      have hv : v₁ = v₂ := by
        have := h k₁
        simpa [QMap.find] using this
      subst hv
      have hrest : rest₁ = rest₂ := by
        apply ih rest₂ hs₁.2 hs₂.2
        intro x
        by_cases hx : x = k₁
        · subst hx
          rw [hn₁, hn₂]
        · have := h x
          simpa [QMap.find, hx] using this
      rw [hrest]

end QMapLemmas

/-! ## Frame lemmas of the handlers -/

section RunLemmas

variable (toJson : QJsonDocument → QByteArray) (fromJson : QByteArray → QJsonDocument)

theorem onFinished_responses (s : State T) (i : Nat) (reply : QNetworkReply) (item : T)
    (hi : s.items[i]? = some item) (hf : s.shutdownInProgress = false) :
    onFinished fromJson s i reply
      = { s with responses := QMap.insert s.responses item (replyOutcome fromJson reply) } := by
  unfold onFinished replyOutcome
  simp only [hi, hf]
  by_cases he : reply.error = NoError
  · cases hd : (fromJson reply.all).isEmpty <;> simp [he, hd]
  · simp [he]

theorem onFinished_of_shutdown (s : State T) (i : Nat) (reply : QNetworkReply)
    (hf : s.shutdownInProgress = true) : onFinished fromJson s i reply = s := by
  unfold onFinished
  cases s.items[i]? <;> simp [hf]

theorem onFinished_of_none (s : State T) (i : Nat) (reply : QNetworkReply)
    (hi : s.items[i]? = none) : onFinished fromJson s i reply = s := by
  unfold onFinished
  simp [hi]

/-- A reply handler changes nothing but `responses`. -/
theorem onFinished_frame (s : State T) (i : Nat) (reply : QNetworkReply) :
    ∃ r, onFinished fromJson s i reply = { s with responses := r } ∧
      (r = s.responses ∨ ∃ item, s.items[i]? = some item ∧ s.shutdownInProgress = false ∧
        r = QMap.insert s.responses item (replyOutcome fromJson reply)) := by
  cases hi : s.items[i]? with
  | none => exact ⟨s.responses, by rw [onFinished_of_none fromJson s i reply hi], Or.inl rfl⟩
  | some item =>
    by_cases hf : s.shutdownInProgress = true
    · exact ⟨s.responses, by rw [onFinished_of_shutdown fromJson s i reply hf], Or.inl rfl⟩
    · have hf' : s.shutdownInProgress = false := by simpa using hf
      exact ⟨_, onFinished_responses fromJson s i reply item hi hf', Or.inr ⟨item, rfl, hf', rfl⟩⟩

theorem onTimeout_of_not_running (s : State T) (h : s.waitTimer ≠ TimerState.running) :
    onTimeout s = s := by
  unfold onTimeout
  simp [h]

theorem onTimeout_of_shutdown (s : State T) (h : s.waitTimer = TimerState.running)
    (hf : s.shutdownInProgress = true) :
    onTimeout s = { s with waitTimer := TimerState.stopped } := by
  unfold onTimeout
  simp [h, hf]

theorem onTimeout_of_complete (s : State T) (h : s.waitTimer = TimerState.running)
    (hf : s.shutdownInProgress = false) (hz : QMap.size s.responses = s.totalSize) :
    onTimeout s = { s with waitTimer := TimerState.stopped,
                           cbCalls := s.cbCalls ++ [s.responses],
                           inProgress := QMap.insert s.inProgress s.method false } := by
  unfold onTimeout
  simp [h, hf, hz]

theorem onTimeout_of_pending (s : State T) (hf : s.shutdownInProgress = false)
    (hz : QMap.size s.responses ≠ s.totalSize) : onTimeout s = s := by
  unfold onTimeout
  simp [hf, hz]

theorem step_items (s : State T) (e : Event) : (step fromJson s e).items = s.items := by
  cases e with
  | finished i reply =>
    obtain ⟨r, hr, -⟩ := onFinished_frame fromJson s i reply
    simp [step, hr]
  | timeout =>
    simp only [step, onTimeout]
    split_ifs <;> rfl
  | shutdown => rfl

theorem step_totalSize (s : State T) (e : Event) :
    (step fromJson s e).totalSize = s.totalSize := by
  cases e with
  | finished i reply =>
    obtain ⟨r, hr, -⟩ := onFinished_frame fromJson s i reply
    simp [step, hr]
  | timeout =>
    simp only [step, onTimeout]
    split_ifs <;> rfl
  | shutdown => rfl

theorem step_method (s : State T) (e : Event) : (step fromJson s e).method = s.method := by
  cases e with
  | finished i reply =>
    obtain ⟨r, hr, -⟩ := onFinished_frame fromJson s i reply
    simp [step, hr]
  | timeout =>
    simp only [step, onTimeout]
    split_ifs <;> rfl
  | shutdown => rfl

theorem step_posted (s : State T) (e : Event) : (step fromJson s e).posted = s.posted := by
  cases e with
  | finished i reply =>
    obtain ⟨r, hr, -⟩ := onFinished_frame fromJson s i reply
    simp [step, hr]
  | timeout =>
    simp only [step, onTimeout]
    split_ifs <;> rfl
  | shutdown => rfl

theorem run_nil (s : State T) : run fromJson s [] = s := rfl

theorem run_cons (s : State T) (e : Event) (es : List Event) :
    run fromJson s (e :: es) = run fromJson (step fromJson s e) es := rfl

theorem run_append (s : State T) (es₁ es₂ : List Event) :
    run fromJson s (es₁ ++ es₂) = run fromJson (run fromJson s es₁) es₂ := by
  simp [run, List.foldl_append]

theorem run_items (s : State T) (es : List Event) : (run fromJson s es).items = s.items := by
  induction es generalizing s with
  | nil => rfl
  | cons e es ih => rw [run_cons, ih, step_items]

theorem run_totalSize (s : State T) (es : List Event) :
    (run fromJson s es).totalSize = s.totalSize := by
  induction es generalizing s with
  | nil => rfl
  | cons e es ih => rw [run_cons, ih, step_totalSize]

theorem run_method (s : State T) (es : List Event) : (run fromJson s es).method = s.method := by
  induction es generalizing s with
  | nil => rfl
  | cons e es ih => rw [run_cons, ih, step_method]

theorem run_posted (s : State T) (es : List Event) : (run fromJson s es).posted = s.posted := by
  induction es generalizing s with
  | nil => rfl
  | cons e es ih => rw [run_cons, ih, step_posted]

/-! ## The call itself -/

theorem foldl_dispatch_shutdown (gen : T → QJsonValue) (method : QString) (payloads : List T)
    (w : World) :
    (payloads.foldl (dispatch toJson gen method) w).shutdownInProgress
      = w.shutdownInProgress := by
  induction payloads generalizing w with
  | nil => rfl
  | cons a l ih => rw [List.foldl_cons, ih]; rfl

theorem foldl_dispatch_posted (gen : T → QJsonValue) (method : QString) (payloads : List T)
    (w : World) :
    (payloads.foldl (dispatch toJson gen method) w).posted
      = w.posted ++ payloads.map (fun item => toJson (QJsonDocument.object (gen item).toObject)) := by
  induction payloads generalizing w with
  | nil => simp
  | cons a l ih =>
    rw [List.foldl_cons, ih]
    simp [dispatch]

theorem foldl_dispatch_find (gen : T → QJsonValue) (method : QString) (payloads : List T)
    (w : World) (hne : payloads ≠ []) (k : QString) :
    QMap.find (payloads.foldl (dispatch toJson gen method) w).inProgress k
      = if k = method then some true else QMap.find w.inProgress k := by
  induction payloads generalizing w with
  | nil => exact absurd rfl hne
  | cons a l ih =>
    rw [List.foldl_cons]
    by_cases hl : l = []
    · subst hl
      simp [dispatch, QMap.find_insert]
    · rw [ih _ hl]
      by_cases hk : k = method
      · simp [hk]
      · simp [hk, dispatch, QMap.find_insert]

theorem doBatchRPC_items (w : World) (payloads : List T) (gen : T → QJsonValue) :
    (doBatchRPC toJson w payloads gen).items = payloads := by
  cases payloads <;> rfl

theorem doBatchRPC_totalSize (w : World) (payloads : List T) (gen : T → QJsonValue) :
    (doBatchRPC toJson w payloads gen).totalSize = payloads.length := by
  cases payloads <;> rfl

theorem doBatchRPC_responses (w : World) (payloads : List T) (gen : T → QJsonValue) :
    (doBatchRPC toJson w payloads gen).responses = [] := by
  cases payloads <;> rfl

theorem doBatchRPC_cbCalls (w : World) (payloads : List T) (gen : T → QJsonValue) :
    (doBatchRPC toJson w payloads gen).cbCalls = [] := by
  cases payloads <;> rfl

theorem doBatchRPC_shutdown (w : World) (payloads : List T) (gen : T → QJsonValue) :
    (doBatchRPC toJson w payloads gen).shutdownInProgress = w.shutdownInProgress := by
  cases payloads with
  | nil => rfl
  | cons a l => exact foldl_dispatch_shutdown toJson gen _ (a :: l) w

theorem doBatchRPC_posted (w : World) (payloads : List T) (gen : T → QJsonValue) :
    (doBatchRPC toJson w payloads gen).posted
      = w.posted ++ payloads.map (fun item => toJson (QJsonDocument.object (gen item).toObject)) := by
  cases payloads with
  | nil => simp [doBatchRPC]
  | cons a l => exact foldl_dispatch_posted toJson gen _ (a :: l) w

theorem doBatchRPC_waitTimer (w : World) (payloads : List T) (gen : T → QJsonValue)
    (hne : payloads ≠ []) :
    (doBatchRPC toJson w payloads gen).waitTimer = TimerState.running := by
  cases payloads with
  | nil => exact absurd rfl hne
  | cons a l => rfl

theorem doBatchRPC_method (w : World) (first : T) (rest : List T) (gen : T → QJsonValue) :
    (doBatchRPC toJson w (first :: rest) gen).method
      = ((gen first).index "method".toList).toString := rfl

theorem doBatchRPC_find (w : World) (payloads : List T) (gen : T → QJsonValue)
    (hne : payloads ≠ []) (k : QString) :
    QMap.find (doBatchRPC toJson w payloads gen).inProgress k
      = if k = (doBatchRPC toJson w payloads gen).method then some true
        else QMap.find w.inProgress k := by
  cases payloads with
  | nil => exact absurd rfl hne
  | cons a l => exact foldl_dispatch_find toJson gen _ (a :: l) w hne k

/-! ## Invariant -/

theorem inv_doBatchRPC (w : World) (payloads : List T) (gen : T → QJsonValue) :
    Inv (doBatchRPC toJson w payloads gen) := by
  refine ⟨?_, ?_, ?_, ?_, ?_, ?_⟩
  · rw [doBatchRPC_responses]
    simp [QMap.Sorted, QMap.keys]
  · rw [doBatchRPC_responses]
    simp [QMap.keys]
  · rw [doBatchRPC_totalSize, doBatchRPC_items]
  · intro _
    exact doBatchRPC_cbCalls toJson w payloads gen
  · rw [doBatchRPC_cbCalls]
    simp
  · rw [doBatchRPC_cbCalls]
    simp

theorem inv_step (s : State T) (e : Event) (h : Inv s) : Inv (step fromJson s e) := by
  cases e with
  | finished i reply =>
    obtain ⟨r, hr, hcases⟩ := onFinished_frame fromJson s i reply
    simp only [step, hr]
    rcases hcases with rfl | ⟨item, hi, -, rfl⟩
    · exact h
    · refine ⟨QMap.sorted_insert _ _ _ h.sorted, ?_, h.total, h.running_cb, h.cb_le, h.cb_map⟩
      intro k hk
      rcases (QMap.mem_keys_insert _ _ _ k).mp hk with rfl | hk
      · exact List.getElem?_mem hi
      · exact h.keys_sub k hk
  | timeout =>
    simp only [step]
    by_cases hr : s.waitTimer = TimerState.running
    · by_cases hf : s.shutdownInProgress = true
      · rw [onTimeout_of_shutdown s hr hf]
        exact ⟨h.sorted, h.keys_sub, h.total, (fun hc => by cases hc), h.cb_le, h.cb_map⟩
      · have hf' : s.shutdownInProgress = false := by simpa using hf
        by_cases hz : QMap.size s.responses = s.totalSize
        · rw [onTimeout_of_complete s hr hf' hz]
          have hcb := h.running_cb hr
          refine ⟨h.sorted, h.keys_sub, h.total, (fun hc => by cases hc), ?_, ?_⟩
          · simp [hcb]
          · intro m hm
            simp only [hcb, List.nil_append, List.mem_singleton] at hm
            subst hm
            exact ⟨h.sorted, h.keys_sub, by rw [hz, h.total]⟩
        · rw [onTimeout_of_pending s hf' hz]
          exact h
    · rw [onTimeout_of_not_running s hr]
      exact h
  | shutdown =>
    exact ⟨h.sorted, h.keys_sub, h.total, h.running_cb, h.cb_le, h.cb_map⟩

theorem inv_run (s : State T) (es : List Event) (h : Inv s) : Inv (run fromJson s es) := by
  induction es generalizing s with
  | nil => exact h
  | cons e es ih => exact ih _ (inv_step fromJson s e h)

/-- A map with strictly ascending keys drawn from `items` has at most as many entries as
`items` has distinct elements. -/
theorem size_le_dedup (m : QMap T QJsonValue) (items : List T) (hs : QMap.Sorted m)
    (hk : ∀ k ∈ QMap.keys m, k ∈ items) : QMap.size m ≤ items.dedup.length := by
  have hsub : QMap.keys m ⊆ items.dedup := fun k hkm => List.mem_dedup.mpr (hk k hkm)
  have := ((QMap.sorted_nodup m hs).subperm hsub).length_le
  simpa [QMap.size, QMap.keys] using this

theorem dedup_length_lt (items : List T) (h : ¬ items.Nodup) :
    items.dedup.length < items.length := by
  rcases Nat.lt_or_ge items.dedup.length items.length with hlt | hge
  · exact hlt
  · exact absurd (List.dedup_eq_self.mp ((List.dedup_sublist items).eq_of_length_le hge)) h

/-! ## Traces -/

theorem step_of_not_running (s : State T) (e : Event) (h : s.waitTimer ≠ TimerState.running) :
    (step fromJson s e).waitTimer = s.waitTimer ∧ (step fromJson s e).cbCalls = s.cbCalls ∧
      (step fromJson s e).inProgress = s.inProgress := by
  cases e with
  | finished i reply =>
    obtain ⟨r, hr, -⟩ := onFinished_frame fromJson s i reply
    simp [step, hr]
  | timeout =>
    simp only [step]
    rw [onTimeout_of_not_running s h]
    exact ⟨rfl, rfl, rfl⟩
  | shutdown => exact ⟨rfl, rfl, rfl⟩

theorem run_of_not_running (s : State T) (es : List Event)
    (h : s.waitTimer ≠ TimerState.running) :
    (run fromJson s es).waitTimer = s.waitTimer ∧ (run fromJson s es).cbCalls = s.cbCalls ∧
      (run fromJson s es).inProgress = s.inProgress := by
  induction es generalizing s with
  | nil => exact ⟨rfl, rfl, rfl⟩
  | cons e es ih =>
    obtain ⟨h1, h2, h3⟩ := step_of_not_running fromJson s e h
    obtain ⟨g1, g2, g3⟩ := ih (step fromJson s e) (by rw [h1]; exact h)
    rw [run_cons]
    exact ⟨g1.trans h1, g2.trans h2, g3.trans h3⟩

/-- Only the poll tick invokes the callback, stops the timer or writes `inProgress`. -/
theorem step_of_ne_timeout (s : State T) (e : Event) (h : e ≠ Event.timeout) :
    (step fromJson s e).waitTimer = s.waitTimer ∧ (step fromJson s e).cbCalls = s.cbCalls ∧
      (step fromJson s e).inProgress = s.inProgress := by
  cases e with
  | finished i reply =>
    obtain ⟨r, hr, -⟩ := onFinished_frame fromJson s i reply
    simp [step, hr]
  | timeout => exact absurd rfl h
  | shutdown => exact ⟨rfl, rfl, rfl⟩

theorem step_shutdown_mono (s : State T) (e : Event) (h : s.shutdownInProgress = true) :
    (step fromJson s e).shutdownInProgress = true ∧
      (step fromJson s e).responses = s.responses := by
  cases e with
  | finished i reply =>
    simp only [step]
    rw [onFinished_of_shutdown fromJson s i reply h]
    exact ⟨h, rfl⟩
  | timeout =>
    simp only [step, onTimeout]
    split_ifs <;> exact ⟨h, rfl⟩
  | shutdown => exact ⟨rfl, rfl⟩

theorem run_shutdown_mono (s : State T) (es : List Event) (h : s.shutdownInProgress = true) :
    (run fromJson s es).shutdownInProgress = true ∧
      (run fromJson s es).responses = s.responses := by
  induction es generalizing s with
  | nil => exact ⟨h, rfl⟩
  | cons e es ih =>
    obtain ⟨h1, h2⟩ := step_shutdown_mono fromJson s e h
    obtain ⟨g1, g2⟩ := ih (step fromJson s e) h1
    rw [run_cons]
    exact ⟨g1, g2.trans h2⟩

theorem step_noShutdown (s : State T) (e : Event) (h : s.shutdownInProgress = false)
    (he : e ≠ Event.shutdown) : (step fromJson s e).shutdownInProgress = false := by
  cases e with
  | finished i reply =>
    obtain ⟨r, hr, -⟩ := onFinished_frame fromJson s i reply
    simp [step, hr, h]
  | timeout =>
    simp only [step, onTimeout]
    split_ifs <;> exact h
  | shutdown => exact absurd rfl he

theorem noShutdown_cons (e : Event) (es : List Event) (h : NoShutdown (e :: es)) :
    e ≠ Event.shutdown ∧ NoShutdown es := by
  unfold NoShutdown at h ⊢
  rw [List.mem_cons, not_or] at h
  exact ⟨fun hc => h.1 hc.symm, h.2⟩

theorem noShutdown_append (es₁ es₂ : List Event) (h : NoShutdown (es₁ ++ es₂)) :
    NoShutdown es₁ ∧ NoShutdown es₂ := by
  unfold NoShutdown at h ⊢
  rw [List.mem_append, not_or] at h
  exact h

theorem run_noShutdown (s : State T) (es : List Event) (h : s.shutdownInProgress = false)
    (hes : NoShutdown es) : (run fromJson s es).shutdownInProgress = false := by
  induction es generalizing s with
  | nil => exact h
  | cons e es ih =>
    obtain ⟨he, hes⟩ := noShutdown_cons e es hes
    exact ih _ (step_noShutdown fromJson s e h he) hes

theorem step_keys_mono (s : State T) (e : Event) (k : T) (hk : k ∈ QMap.keys s.responses) :
    k ∈ QMap.keys (step fromJson s e).responses := by
  cases e with
  | finished i reply =>
    obtain ⟨r, hr, hcases⟩ := onFinished_frame fromJson s i reply
    simp only [step, hr]
    rcases hcases with rfl | ⟨item, -, -, rfl⟩
    · exact hk
    · exact (QMap.mem_keys_insert _ _ _ k).mpr (Or.inr hk)
  | timeout =>
    simp only [step, onTimeout]
    split_ifs <;> exact hk
  | shutdown => exact hk

theorem run_keys_mono (s : State T) (es : List Event) (k : T)
    (hk : k ∈ QMap.keys s.responses) : k ∈ QMap.keys (run fromJson s es).responses := by
  induction es generalizing s with
  | nil => exact hk
  | cons e es ih => exact ih _ (step_keys_mono fromJson s e k hk)

/-- Without shutdown, the item of every reply that has arrived is a key of `responses`. -/
theorem mem_keys_run (s : State T) (es : List Event) (h : s.shutdownInProgress = false)
    (hes : NoShutdown es) (i : Nat) (reply : QNetworkReply) (item : T)
    (hmem : Event.finished i reply ∈ es) (hi : s.items[i]? = some item) :
    item ∈ QMap.keys (run fromJson s es).responses := by
  induction es generalizing s with
  | nil => cases hmem
  | cons e es ih =>
    obtain ⟨he, hes⟩ := noShutdown_cons e es hes
    rw [run_cons]
    rcases List.mem_cons.mp hmem with heq | hmem
    · subst heq
      apply run_keys_mono
      simp only [step]
      rw [onFinished_responses fromJson s i reply item hi h]
      exact (QMap.mem_keys_insert _ _ _ item).mpr (Or.inl rfl)
    · exact ih _ (step_noShutdown fromJson s e h he) hes hmem
        (by rw [step_items]; exact hi)

/-- Every binding of `responses`, and of a map handed to the callback, comes from a reply
that arrived for its key. -/
theorem run_bindings (P : T → QJsonValue → Prop) (s : State T) (es : List Event)
    (harr : ∀ i reply, Event.finished i reply ∈ es → ∀ k, s.items[i]? = some k →
      P k (replyOutcome fromJson reply))
    (h₁ : ∀ k v, QMap.find s.responses k = some v → P k v)
    (h₂ : ∀ m ∈ s.cbCalls, ∀ k v, QMap.find m k = some v → P k v) :
    (∀ k v, QMap.find (run fromJson s es).responses k = some v → P k v) ∧
      (∀ m ∈ (run fromJson s es).cbCalls, ∀ k v, QMap.find m k = some v → P k v) := by
  induction es generalizing s with
  | nil => exact ⟨h₁, h₂⟩
  | cons e es ih =>
    rw [run_cons]
    apply ih
    · intro i reply hm k hk
      rw [step_items] at hk
      exact harr i reply (List.mem_cons_of_mem _ hm) k hk
    · cases e with
      | finished i reply =>
        obtain ⟨r, hr, hcases⟩ := onFinished_frame fromJson s i reply
        simp only [step, hr]
        rcases hcases with rfl | ⟨item, hi, -, rfl⟩
        · exact h₁
        · intro k v hf
          rw [QMap.find_insert] at hf
          by_cases hk : k = item
          · subst hk
            simp only [if_true, Option.some.injEq] at hf
            subst hf
            exact harr i reply (List.mem_cons_self _ _) k hi
          · simp only [hk, if_false] at hf
            exact h₁ k v hf
      | timeout =>
        simp only [step, onTimeout]
        split_ifs <;> exact h₁
      | shutdown => exact h₁
    · cases e with
      | finished i reply =>
        obtain ⟨r, hr, -⟩ := onFinished_frame fromJson s i reply
        simp only [step, hr]
        exact h₂
      | timeout =>
        simp only [step, onTimeout]
        split_ifs
        · exact h₂
        · exact h₂
        · intro m hm
          rcases List.mem_append.mp hm with hm | hm
          · exact h₂ m hm
          · rw [List.mem_singleton] at hm
            subst hm
            exact h₁
        · exact h₂
      | shutdown => exact h₂

/-! ## Completion -/

theorem mem_arrivals (es : List Event) (i : Nat) (reply : QNetworkReply) :
    (i, reply) ∈ arrivals es ↔ Event.finished i reply ∈ es := by
  unfold arrivals
  rw [List.mem_filterMap]
  constructor
  · rintro ⟨e, he, hm⟩
    cases e with
    | finished j r =>
      simp only [Option.some.injEq, Prod.mk.injEq] at hm
      obtain ⟨rfl, rfl⟩ := hm
      exact he
    | timeout => cases hm
    | shutdown => cases hm
  · intro h
    exact ⟨_, h, rfl⟩

theorem arrived_of_perm (es : List Event) (n : Nat)
    (h : ((arrivals es).map Prod.fst).Perm (List.range n)) (i : Nat) (hi : i < n) :
    ∃ reply, Event.finished i reply ∈ es := by
  have hm : i ∈ (arrivals es).map Prod.fst := h.symm.subset (List.mem_range.mpr hi)
  obtain ⟨⟨j, r⟩, hjr, rfl⟩ := List.mem_map.mp hm
  exact ⟨r, (mem_arrivals es j r).mp hjr⟩

/-- A full map: with pairwise distinct items, a map of `items.length` entries whose keys
are items has every item as a key. -/
theorem mem_keys_of_size (m : QMap T QJsonValue) (items : List T) (hs : QMap.Sorted m)
    (hk : ∀ k ∈ QMap.keys m, k ∈ items) (hz : QMap.size m = items.length) (k : T)
    (hmem : k ∈ items) : k ∈ QMap.keys m := by
  have hsub : (QMap.keys m).Subperm items := (QMap.sorted_nodup m hs).subperm hk
  have hlen : items.length ≤ (QMap.keys m).length := by
    simp [QMap.keys, ← hz, QMap.size]
  exact (hsub.perm_of_length_le hlen).symm.subset hmem

theorem size_of_keys (m : QMap T QJsonValue) (items : List T) (hs : QMap.Sorted m)
    (hk : ∀ k ∈ QMap.keys m, k ∈ items) (hd : items.Nodup)
    (hall : ∀ k ∈ items, k ∈ QMap.keys m) : QMap.size m = items.length := by
  have hperm : (QMap.keys m).Perm items :=
    (List.perm_ext_iff_of_nodup (QMap.sorted_nodup m hs) hd).mpr
      (fun a => ⟨hk a, hall a⟩)
  have := hperm.length_eq
  simpa [QMap.size, QMap.keys] using this

/-- While the shutdown flag stays clear, a created timer is only ever stopped by the tick
that invokes the callback. -/
theorem run_stopped_cb (s : State T) (es : List Event) (hinv : Inv s)
    (h : s.shutdownInProgress = false) (hes : NoShutdown es)
    (hc : s.waitTimer ≠ TimerState.notCreated)
    (hq : s.waitTimer = TimerState.stopped → s.cbCalls.length = 1) :
    (run fromJson s es).waitTimer ≠ TimerState.notCreated ∧
      ((run fromJson s es).waitTimer = TimerState.stopped →
        (run fromJson s es).cbCalls.length = 1) := by
  induction es generalizing s with
  | nil => exact ⟨hc, hq⟩
  | cons e es ih =>
    obtain ⟨he, hes⟩ := noShutdown_cons e es hes
    rw [run_cons]
    apply ih _ (inv_step fromJson s e hinv) (step_noShutdown fromJson s e h he) hes
    · cases e with
      | finished i reply => rw [(step_of_ne_timeout fromJson s _ (by simp)).1]; exact hc
      | shutdown => exact hc
      | timeout =>
        simp only [step, onTimeout]
        split_ifs <;> simp [hc]
    · cases e with
      | finished i reply =>
        obtain ⟨e1, e2, -⟩ := step_of_ne_timeout fromJson s (Event.finished i reply) (by simp)
        rw [e1, e2]
        exact hq
      | shutdown => exact hq
      | timeout =>
        simp only [step]
        by_cases hr : s.waitTimer = TimerState.running
        · by_cases hz : QMap.size s.responses = s.totalSize
          · rw [onTimeout_of_complete s hr h hz]
            intro _
            simp [hinv.running_cb hr]
          · rw [onTimeout_of_pending s h hz]
            exact hq
        · rw [onTimeout_of_not_running s hr]
          exact hq

/-- The heart of completion: pairwise distinct items, no shutdown, every reply arrived,
then a tick. -/
theorem delivered (w : World) (payloads : List T) (gen : T → QJsonValue)
    (pre post : List Event) (hN : payloads ≠ []) (hd : payloads.Nodup)
    (hw : w.shutdownInProgress = false) (hpre : NoShutdown pre)
    (harr : ∀ i, i < payloads.length → ∃ reply, Event.finished i reply ∈ pre) :
    ∃ m, (run fromJson (doBatchRPC toJson w payloads gen) (pre ++ Event.timeout :: post)).cbCalls
          = [m] ∧
      m ∈ (run fromJson (doBatchRPC toJson w payloads gen) (pre ++ [Event.timeout])).cbCalls ∧
      QMap.Sorted m ∧ QMap.size m = payloads.length ∧
      (∀ k, k ∈ QMap.keys m ↔ k ∈ payloads) := by
  set s₀ := doBatchRPC toJson w payloads gen with hs₀
  set s₁ := run fromJson s₀ pre with hs₁
  have hinv₀ : Inv s₀ := inv_doBatchRPC toJson w payloads gen
  have hinv₁ : Inv s₁ := inv_run fromJson s₀ pre hinv₀
  have hf₀ : s₀.shutdownInProgress = false := by
    rw [hs₀, doBatchRPC_shutdown]; exact hw
  have hf₁ : s₁.shutdownInProgress = false := run_noShutdown fromJson s₀ pre hf₀ hpre
  have hitems₀ : s₀.items = payloads := doBatchRPC_items toJson w payloads gen
  have hitems₁ : s₁.items = payloads := by rw [hs₁, run_items, hitems₀]
  have hrun₀ : s₀.waitTimer = TimerState.running := doBatchRPC_waitTimer toJson w payloads gen hN
  obtain ⟨hc₁, hq₁⟩ := run_stopped_cb fromJson s₀ pre hinv₀ hf₀ hpre
    (by rw [hrun₀]; simp) (by rw [hrun₀]; intro hc; cases hc)
  have hsize : QMap.size s₁.responses = s₁.totalSize := by
    rw [hinv₁.total]
    apply size_of_keys _ _ hinv₁.sorted hinv₁.keys_sub (by rw [hitems₁]; exact hd)
    intro k hk
    rw [hitems₁] at hk
    obtain ⟨i, hi⟩ := List.mem_iff_getElem?.mp hk
    have hlt : i < payloads.length := by
      by_contra hge
      rw [List.getElem?_eq_none (Nat.le_of_not_lt hge)] at hi
      cases hi
    obtain ⟨reply, hmem⟩ := harr i hlt
    exact mem_keys_run fromJson s₀ pre hf₀ hpre i reply k hmem (by rw [hitems₀]; exact hi)
  have hs₂ : run fromJson s₀ (pre ++ [Event.timeout]) = onTimeout s₁ := by
    rw [run_append]; rfl
  have hinv₂ : Inv (onTimeout s₁) := inv_step fromJson s₁ Event.timeout hinv₁
  have hitems₂ : (onTimeout s₁).items = payloads := by
    have := step_items fromJson s₁ Event.timeout
    rw [hitems₁] at this
    exact this
  have key : (onTimeout s₁).waitTimer ≠ TimerState.running ∧ (onTimeout s₁).cbCalls.length = 1 := by
    by_cases hr : s₁.waitTimer = TimerState.running
    · rw [onTimeout_of_complete s₁ hr hf₁ hsize]
      simp [hinv₁.running_cb hr]
    · rw [onTimeout_of_not_running s₁ hr]
      refine ⟨hr, hq₁ ?_⟩
      cases hwt : s₁.waitTimer with
      | notCreated => exact absurd hwt hc₁
      | running => exact absurd hwt hr
      | stopped => rfl
  obtain ⟨m, hm⟩ := List.length_eq_one.mp key.2
  have hfinal : (run fromJson s₀ (pre ++ Event.timeout :: post)).cbCalls = [m] := by
    rw [run_append, run_cons]
    rw [(run_of_not_running fromJson (step fromJson s₁ Event.timeout) post key.1).2.1]
    exact hm
  have hmem : m ∈ (onTimeout s₁).cbCalls := by rw [hm]; exact List.mem_singleton.mpr rfl
  obtain ⟨hsm, hkm, hzm⟩ := hinv₂.cb_map m hmem
  rw [hitems₂] at hkm hzm
  refine ⟨m, hfinal, by rw [hs₂]; exact hmem, hsm, hzm, ?_⟩
  intro k
  exact ⟨hkm k, mem_keys_of_size m payloads hsm hkm hzm k⟩

/-! ## The `inProgress` table and the timer along a trace -/

theorem step_running (s : State T) (e : Event)
    (h : (step fromJson s e).waitTimer = TimerState.running) :
    s.waitTimer = TimerState.running ∧ (step fromJson s e).inProgress = s.inProgress ∧
      (step fromJson s e).cbCalls = s.cbCalls := by
  by_cases hr : s.waitTimer = TimerState.running
  · refine ⟨hr, ?_⟩
    by_cases he : e = Event.timeout
    · subst he
      simp only [step] at h ⊢
      by_cases hf : s.shutdownInProgress = true
      · rw [onTimeout_of_shutdown s hr hf] at h
        cases h
      · have hf' : s.shutdownInProgress = false := by simpa using hf
        by_cases hz : QMap.size s.responses = s.totalSize
        · rw [onTimeout_of_complete s hr hf' hz] at h
          cases h
        · rw [onTimeout_of_pending s hf' hz]
          exact ⟨rfl, rfl⟩
    · obtain ⟨-, h2, h3⟩ := step_of_ne_timeout fromJson s e he
      exact ⟨h3, h2⟩
  · obtain ⟨h1, -, -⟩ := step_of_not_running fromJson s e hr
    rw [h1] at h
    exact absurd h hr

/-- As long as the timer is running, the batch has neither invoked the callback nor written
the `inProgress` table. -/
theorem run_running (s : State T) (es : List Event)
    (h : (run fromJson s es).waitTimer = TimerState.running) :
    s.waitTimer = TimerState.running ∧ (run fromJson s es).inProgress = s.inProgress ∧
      (run fromJson s es).cbCalls = s.cbCalls := by
  induction es generalizing s with
  | nil => exact ⟨h, rfl, rfl⟩
  | cons e es ih =>
    rw [run_cons] at h ⊢
    obtain ⟨g1, g2, g3⟩ := ih _ h
    obtain ⟨k1, k2, k3⟩ := step_running fromJson s e g1
    exact ⟨k1, g2.trans k2, g3.trans k3⟩

theorem step_find_ne (s : State T) (e : Event) (k : QString) (hk : k ≠ s.method) :
    QMap.find (step fromJson s e).inProgress k = QMap.find s.inProgress k := by
  by_cases he : e = Event.timeout
  · subst he
    simp only [step, onTimeout]
    split_ifs
    · rfl
    · rfl
    · simp only [QMap.find_insert, if_neg hk]
    · rfl
  · rw [(step_of_ne_timeout fromJson s e he).2.2]

theorem run_find_ne (s : State T) (es : List Event) (k : QString) (hk : k ≠ s.method) :
    QMap.find (run fromJson s es).inProgress k = QMap.find s.inProgress k := by
  induction es generalizing s with
  | nil => rfl
  | cons e es ih =>
    rw [run_cons, ih _ (by rw [step_method]; exact hk), step_find_ne fromJson s e k hk]

/-- With an item occurring twice, `responses` never reaches the batch size. -/
theorem size_lt_of_dup (s : State T) (h : Inv s) (hdup : ¬ s.items.Nodup) :
    QMap.size s.responses < s.totalSize := by
  rw [h.total]
  exact lt_of_le_of_lt (size_le_dedup s.responses s.items h.sorted h.keys_sub)
    (dedup_length_lt s.items hdup)

theorem run_running_of_dup (s : State T) (es : List Event) (h : Inv s)
    (hdup : ¬ s.items.Nodup) (hf : s.shutdownInProgress = false) (hes : NoShutdown es)
    (hr : s.waitTimer = TimerState.running) :
    (run fromJson s es).waitTimer = TimerState.running := by
  induction es generalizing s with
  | nil => exact hr
  | cons e es ih =>
    obtain ⟨he, hes⟩ := noShutdown_cons e es hes
    rw [run_cons]
    apply ih _ (inv_step fromJson s e h) (by rw [step_items]; exact hdup)
      (step_noShutdown fromJson s e hf he) hes
    by_cases ht : e = Event.timeout
    · subst ht
      simp only [step]
      rw [onTimeout_of_pending s hf (ne_of_lt (size_lt_of_dup s h hdup))]
      exact hr
    · rw [(step_of_ne_timeout fromJson s e ht).1]
      exact hr

/-- The map delivered for pairwise distinct items, when every reply arrives exactly once. -/
theorem delivered_outcomes (w : World) (payloads : List T) (gen : T → QJsonValue)
    (replies : List QNetworkReply) (pre post : List Event)
    (hN : payloads ≠ []) (hd : payloads.Nodup) (hlen : replies.length = payloads.length)
    (hw : w.shutdownInProgress = false) (hpre : NoShutdown pre)
    (harr : (arrivals pre).Perm replies.enum) :
    ∃ m, (run fromJson (doBatchRPC toJson w payloads gen) (pre ++ Event.timeout :: post)).cbCalls
          = [m] ∧
      QMap.Sorted m ∧ (∀ k, k ∈ QMap.keys m ↔ k ∈ payloads) ∧
      (∀ (i : Nat) (item : T) (reply : QNetworkReply), payloads[i]? = some item →
        replies[i]? = some reply → QMap.find m item = some (replyOutcome fromJson reply)) := by
  have hiff : ∀ i reply, Event.finished i reply ∈ pre ↔ replies[i]? = some reply := by
    intro i reply
    rw [← mem_arrivals, harr.mem_iff, List.mk_mem_enum_iff_getElem?]
  have hall : ∀ i, i < payloads.length → ∃ reply, Event.finished i reply ∈ pre := by
    intro i hi
    have hi' : i < replies.length := by rw [hlen]; exact hi
    exact ⟨replies[i], (hiff i _).mpr (List.getElem?_eq_getElem hi')⟩
  obtain ⟨m, hm, hmem, hsorted, -, hkeys⟩ :=
    delivered toJson fromJson w payloads gen pre post hN hd hw hpre hall
  refine ⟨m, hm, hsorted, hkeys, ?_⟩
  have hb := (run_bindings fromJson
    (fun k v => ∀ (i : Nat) (reply : QNetworkReply), payloads[i]? = some k →
      replies[i]? = some reply →
      v = replyOutcome fromJson reply)
    (doBatchRPC toJson w payloads gen) (pre ++ [Event.timeout]) ?_ ?_ ?_).2 m hmem
  · intro i item reply hi hr
    have hk : item ∈ QMap.keys m := (hkeys item).mpr (List.getElem?_mem hi)
    cases hfind : QMap.find m item with
    | none => exact absurd hk ((QMap.find_eq_none_iff m item).mp hfind)
    | some v => rw [hb item v hfind i reply hi hr]
  · intro j reply' hmem' k hk i reply hi hr
    rw [doBatchRPC_items] at hk
    have hj : Event.finished j reply' ∈ pre := by
      rcases List.mem_append.mp hmem' with h | h
      · exact h
      · rw [List.mem_singleton] at h
        cases h
    have hjr := (hiff j reply').mp hj
    have hjlt : j < payloads.length := by
      by_contra hge
      rw [List.getElem?_eq_none (Nat.le_of_not_lt hge)] at hk
      cases hk
    have hij : j = i := List.getElem?_inj hjlt hd (hk.trans hi.symm)
    subst hij
    rw [hjr] at hr
    cases hr
    rfl
  · intro k v hf
    rw [doBatchRPC_responses] at hf
    cases hf
  · intro m' hm'
    rw [doBatchRPC_cbCalls] at hm'
    cases hm'

theorem ne_nil_of_one_le (l : List T) (h : 1 ≤ l.length) : l ≠ [] := by
  intro hl
  rw [hl] at h
  simp at h

end RunLemmas

/-! ## The claims -/

/-- C1, as stated, fails when an item occurs twice: for the batch `[7, 7]`, with no shutdown,
after both replies have been handled and the poll timer has ticked, the callback has not
been invoked. -/
theorem doBatchRPC_duplicate_never_completes :
    1 ≤ [7, 7].length ∧ exWorld.shutdownInProgress = false ∧
    NoShutdown ([Event.finished 1 exReply, Event.finished 0 exReply] ++ [Event.timeout]) ∧
    ((arrivals [Event.finished 1 exReply, Event.finished 0 exReply]).map Prod.fst).Perm
      (List.range [7, 7].length) ∧
    ¬ ∃ m, (run exFromJson (doBatchRPC exToJson exWorld [7, 7] exGen)
        ([Event.finished 1 exReply, Event.finished 0 exReply] ++ [Event.timeout])).cbCalls = [m]
      ∧ QMap.size m = [7, 7].length := by
  refine ⟨by decide, rfl, by decide, by decide, ?_⟩
  rintro ⟨m, hm, -⟩
  have h0 : (run exFromJson (doBatchRPC exToJson exWorld [7, 7] exGen)
      ([Event.finished 1 exReply, Event.finished 0 exReply] ++ [Event.timeout])).cbCalls = [] := rfl
  rw [h0] at hm
  cases hm

/-- C1 (amended): for every list of N ≥ 1 pairwise distinct items, with the shutdown flag
never set, and for every order in which the N replies arrive: once all N replies have been
handled and the poll timer has ticked, the completion callback has been invoked exactly once
and the map it received contains exactly N entries. -/
theorem doBatchRPC_completes_once (toJson : QJsonDocument → QByteArray)
    (fromJson : QByteArray → QJsonDocument) (w : World) (payloads : List T)
    (gen : T → QJsonValue) (pre post : List Event)
    (hN : 1 ≤ payloads.length) (hd : payloads.Nodup) (hw : w.shutdownInProgress = false)
    (hes : NoShutdown (pre ++ Event.timeout :: post))
    (harr : ((arrivals pre).map Prod.fst).Perm (List.range payloads.length)) :
    ∃ m, (run fromJson (doBatchRPC toJson w payloads gen)
        (pre ++ Event.timeout :: post)).cbCalls = [m] ∧ QMap.size m = payloads.length := by
  have hne : payloads ≠ [] := ne_nil_of_one_le payloads hN
  obtain ⟨m, hm, -, -, hz, -⟩ := delivered toJson fromJson w payloads gen pre post hne hd hw
    (noShutdown_append _ _ hes).1 (arrived_of_perm pre payloads.length harr)
  exact ⟨m, hm, hz⟩

theorem doBatchRPC_completes_once_witness :
    1 ≤ [7, 8].length ∧ [7, 8].Nodup ∧ exWorld.shutdownInProgress = false ∧
    NoShutdown ([Event.finished 1 exError, Event.timeout, Event.finished 0 exReply]
      ++ Event.timeout :: [Event.timeout]) ∧
    ((arrivals [Event.finished 1 exError, Event.timeout, Event.finished 0 exReply]).map
      Prod.fst).Perm (List.range [7, 8].length) ∧
    ∃ m, (run exFromJson (doBatchRPC exToJson exWorld [7, 8] exGen)
        ([Event.finished 1 exError, Event.timeout, Event.finished 0 exReply]
          ++ Event.timeout :: [Event.timeout])).cbCalls = [m] ∧ QMap.size m = [7, 8].length :=
  ⟨by decide, by decide, rfl, by decide, by decide,
    doBatchRPC_completes_once exToJson exFromJson exWorld [7, 8] exGen
      [Event.finished 1 exError, Event.timeout, Event.finished 0 exReply] [Event.timeout]
      (by decide) (by decide) rfl (by decide) (by decide)⟩

/-- C2: for an empty payload list `doBatchRPC` returns without posting any request, without
creating or starting the poll timer and without touching the `inProgress` table, and no
later event invokes the completion callback (or posts, or writes the table). -/
theorem doBatchRPC_empty (toJson : QJsonDocument → QByteArray)
    (fromJson : QByteArray → QJsonDocument) (w : World) (gen : T → QJsonValue)
    (es : List Event) :
    (doBatchRPC toJson w ([] : List T) gen).posted = w.posted ∧
    (doBatchRPC toJson w ([] : List T) gen).waitTimer = TimerState.notCreated ∧
    (doBatchRPC toJson w ([] : List T) gen).inProgress = w.inProgress ∧
    (doBatchRPC toJson w ([] : List T) gen).cbCalls = [] ∧
    (run fromJson (doBatchRPC toJson w ([] : List T) gen) es).cbCalls = [] ∧
    (run fromJson (doBatchRPC toJson w ([] : List T) gen) es).posted = w.posted ∧
    (run fromJson (doBatchRPC toJson w ([] : List T) gen) es).inProgress = w.inProgress ∧
    (run fromJson (doBatchRPC toJson w ([] : List T) gen) es).waitTimer
      = TimerState.notCreated := by
  have hnr : (doBatchRPC toJson w ([] : List T) gen).waitTimer ≠ TimerState.running := by
    intro h
    cases h
  obtain ⟨h1, h2, h3⟩ := run_of_not_running fromJson _ es hnr
  exact ⟨rfl, rfl, rfl, rfl, h2, run_posted fromJson _ es, h3, h1⟩

/-- C6: for every list of N items (N ≥ 1 included) `doBatchRPC` posts exactly N requests before it
returns, one per item in list order, the i-th carrying the serialised JSON object
`payloadGenerator(payloads[i]).toObject()`; at its return no reply has been handled
(`responses` is empty, the callback not invoked), and no later event posts anything. -/
theorem doBatchRPC_posts_all (toJson : QJsonDocument → QByteArray)
    (fromJson : QByteArray → QJsonDocument) (w : World) (payloads : List T)
    (gen : T → QJsonValue) :
    (doBatchRPC toJson w payloads gen).posted
      = w.posted ++ payloads.map (fun item => toJson (QJsonDocument.object (gen item).toObject)) ∧
    (doBatchRPC toJson w payloads gen).posted.length = w.posted.length + payloads.length ∧
    (∀ item o, item ∈ payloads → gen item = QJsonValue.object o →
      toJson (QJsonDocument.object o) ∈ (doBatchRPC toJson w payloads gen).posted) ∧
    (doBatchRPC toJson w payloads gen).responses = [] ∧
    (doBatchRPC toJson w payloads gen).cbCalls = [] ∧
    (∀ es, (run fromJson (doBatchRPC toJson w payloads gen) es).posted
      = (doBatchRPC toJson w payloads gen).posted) := by
  have hp := doBatchRPC_posted toJson w payloads gen
  refine ⟨hp, ?_, ?_, doBatchRPC_responses toJson w payloads gen,
    doBatchRPC_cbCalls toJson w payloads gen, fun es => run_posted fromJson _ es⟩
  · rw [hp]
    simp
  · intro item o hmem ho
    rw [hp]
    apply List.mem_append_right
    refine List.mem_map.mpr ⟨item, hmem, ?_⟩
    simp [ho, QJsonValue.toObject]

/-- C7: overlapping batches for the same method are not prevented: whatever the `inProgress`
table holds (`tbl`), a call with N ≥ 1 items posts all N requests and starts its own poll
timer, and everything but the table itself is exactly as for any other content (`tbl'`),
such as one where the method is false or absent. -/
theorem doBatchRPC_ignores_inProgress (toJson : QJsonDocument → QByteArray)
    (flag : Bool) (posted : List QByteArray) (tbl tbl' : QMap QString Bool)
    (payloads : List T) (gen : T → QJsonValue) (hN : 1 ≤ payloads.length) :
    (doBatchRPC toJson ⟨flag, tbl, posted⟩ payloads gen).posted
      = posted ++ payloads.map (fun item => toJson (QJsonDocument.object (gen item).toObject)) ∧
    (doBatchRPC toJson ⟨flag, tbl, posted⟩ payloads gen).waitTimer = TimerState.running ∧
    (doBatchRPC toJson ⟨flag, tbl, posted⟩ payloads gen).posted
      = (doBatchRPC toJson ⟨flag, tbl', posted⟩ payloads gen).posted ∧
    (doBatchRPC toJson ⟨flag, tbl, posted⟩ payloads gen).waitTimer
      = (doBatchRPC toJson ⟨flag, tbl', posted⟩ payloads gen).waitTimer ∧
    (doBatchRPC toJson ⟨flag, tbl, posted⟩ payloads gen).items
      = (doBatchRPC toJson ⟨flag, tbl', posted⟩ payloads gen).items ∧
    (doBatchRPC toJson ⟨flag, tbl, posted⟩ payloads gen).totalSize
      = (doBatchRPC toJson ⟨flag, tbl', posted⟩ payloads gen).totalSize ∧
    (doBatchRPC toJson ⟨flag, tbl, posted⟩ payloads gen).method
      = (doBatchRPC toJson ⟨flag, tbl', posted⟩ payloads gen).method ∧
    (doBatchRPC toJson ⟨flag, tbl, posted⟩ payloads gen).responses
      = (doBatchRPC toJson ⟨flag, tbl', posted⟩ payloads gen).responses ∧
    (doBatchRPC toJson ⟨flag, tbl, posted⟩ payloads gen).cbCalls
      = (doBatchRPC toJson ⟨flag, tbl', posted⟩ payloads gen).cbCalls ∧
    (doBatchRPC toJson ⟨flag, tbl, posted⟩ payloads gen).shutdownInProgress
      = (doBatchRPC toJson ⟨flag, tbl', posted⟩ payloads gen).shutdownInProgress := by
  have hne : payloads ≠ [] := ne_nil_of_one_le payloads hN
  refine ⟨doBatchRPC_posted toJson _ payloads gen, doBatchRPC_waitTimer toJson _ payloads gen hne,
    ?_, ?_, ?_, ?_, ?_, ?_, ?_, ?_⟩
  · rw [doBatchRPC_posted, doBatchRPC_posted]
  · rw [doBatchRPC_waitTimer toJson _ payloads gen hne,
      doBatchRPC_waitTimer toJson _ payloads gen hne]
  · rw [doBatchRPC_items, doBatchRPC_items]
  · rw [doBatchRPC_totalSize, doBatchRPC_totalSize]
  · cases payloads with
    | nil => exact absurd rfl hne
    | cons a l => rfl
  · rw [doBatchRPC_responses, doBatchRPC_responses]
  · rw [doBatchRPC_cbCalls, doBatchRPC_cbCalls]
  · rw [doBatchRPC_shutdown, doBatchRPC_shutdown]

theorem doBatchRPC_ignores_inProgress_witness :
    1 ≤ [7, 8].length ∧
    (doBatchRPC exToJson ⟨false, [("z_getbalance".toList, true)], []⟩ [7, 8] exGen).posted
      = [[1], [1]] ∧
    (doBatchRPC exToJson ⟨false, [("z_getbalance".toList, true)], []⟩ [7, 8] exGen).waitTimer
      = TimerState.running :=
  ⟨by decide,
    (doBatchRPC_ignores_inProgress exToJson false [] [("z_getbalance".toList, true)] []
      [7, 8] exGen (by decide)).1,
    (doBatchRPC_ignores_inProgress exToJson false [] [("z_getbalance".toList, true)] []
      [7, 8] exGen (by decide)).2.1⟩

/-- C3: if the shutdown flag is set when a reply arrives, the reply handler leaves the
`responses` map unchanged, and so does every later event; the first poll tick that occurs
while the flag is set (the timer still running) stops the timer without invoking the
completion callback, and whatever events follow, the timer stays stopped and the callback
is never invoked. -/
theorem doBatchRPC_shutdown_aborts (toJson : QJsonDocument → QByteArray)
    (fromJson : QByteArray → QJsonDocument) (w : World) (payloads : List T)
    (gen : T → QJsonValue) (pre : List Event)
    (hf : (run fromJson (doBatchRPC toJson w payloads gen) pre).shutdownInProgress = true) :
    (∀ i reply,
      onFinished fromJson (run fromJson (doBatchRPC toJson w payloads gen) pre) i reply
        = run fromJson (doBatchRPC toJson w payloads gen) pre) ∧
    (∀ post, (run fromJson (doBatchRPC toJson w payloads gen) (pre ++ post)).responses
        = (run fromJson (doBatchRPC toJson w payloads gen) pre).responses) ∧
    ((run fromJson (doBatchRPC toJson w payloads gen) pre).waitTimer = TimerState.running →
      ∀ post,
        (run fromJson (doBatchRPC toJson w payloads gen)
          (pre ++ Event.timeout :: post)).waitTimer = TimerState.stopped ∧
        (run fromJson (doBatchRPC toJson w payloads gen)
          (pre ++ Event.timeout :: post)).cbCalls = []) := by
  refine ⟨fun i reply => onFinished_of_shutdown fromJson _ i reply hf, ?_, ?_⟩
  · intro post
    rw [run_append]
    exact (run_shutdown_mono fromJson _ post hf).2
  · intro hr post
    rw [run_append, run_cons]
    have hcb := (run_running fromJson _ pre hr).2.2
    rw [doBatchRPC_cbCalls] at hcb
    have hstep : step fromJson (run fromJson (doBatchRPC toJson w payloads gen) pre) Event.timeout
        = { run fromJson (doBatchRPC toJson w payloads gen) pre with
            waitTimer := TimerState.stopped } := onTimeout_of_shutdown _ hr hf
    obtain ⟨h1, h2, -⟩ := run_of_not_running fromJson
      (step fromJson (run fromJson (doBatchRPC toJson w payloads gen) pre) Event.timeout) post
      (by rw [hstep]; simp)
    rw [h1, h2, hstep]
    exact ⟨rfl, hcb⟩

theorem doBatchRPC_shutdown_aborts_witness :
    (run exFromJson (doBatchRPC exToJson exWorld [7, 8] exGen)
      [Event.finished 0 exReply, Event.shutdown]).shutdownInProgress = true ∧
    (run exFromJson (doBatchRPC exToJson exWorld [7, 8] exGen)
      [Event.finished 0 exReply, Event.shutdown]).waitTimer = TimerState.running ∧
    (run exFromJson (doBatchRPC exToJson exWorld [7, 8] exGen)
      ([Event.finished 0 exReply, Event.shutdown] ++ [Event.finished 1 exReply])).responses
      = (run exFromJson (doBatchRPC exToJson exWorld [7, 8] exGen)
          [Event.finished 0 exReply, Event.shutdown]).responses ∧
    (run exFromJson (doBatchRPC exToJson exWorld [7, 8] exGen)
      ([Event.finished 0 exReply, Event.shutdown] ++ Event.timeout ::
        [Event.finished 1 exReply, Event.timeout])).waitTimer = TimerState.stopped ∧
    (run exFromJson (doBatchRPC exToJson exWorld [7, 8] exGen)
      ([Event.finished 0 exReply, Event.shutdown] ++ Event.timeout ::
        [Event.finished 1 exReply, Event.timeout])).cbCalls = [] :=
  ⟨rfl, rfl,
    (doBatchRPC_shutdown_aborts exToJson exFromJson exWorld [7, 8] exGen
      [Event.finished 0 exReply, Event.shutdown] rfl).2.1 [Event.finished 1 exReply],
    (doBatchRPC_shutdown_aborts exToJson exFromJson exWorld [7, 8] exGen
      [Event.finished 0 exReply, Event.shutdown] rfl).2.2 rfl
      [Event.finished 1 exReply, Event.timeout]⟩

/-- C4: after every sequence of events of one batch (reply arrivals in any order, poll
ticks, shutdown) the completion callback has been invoked at most once; no event other than
a poll tick invokes it; a poll tick invokes it, with the current `responses`, if and only
if the timer is still running, the shutdown flag is not set and `responses.size()` equals
the size of the input batch, and otherwise invokes nothing; a tick at which
`responses.size()` is smaller and shutdown is not set changes nothing at all, so the timer
keeps running. -/
theorem doBatchRPC_callback_at_most_once (toJson : QJsonDocument → QByteArray)
    (fromJson : QByteArray → QJsonDocument) (w : World) (payloads : List T)
    (gen : T → QJsonValue) (es : List Event) :
    (run fromJson (doBatchRPC toJson w payloads gen) es).cbCalls.length ≤ 1 ∧
    (∀ e, e ≠ Event.timeout →
      (run fromJson (doBatchRPC toJson w payloads gen) (es ++ [e])).cbCalls
        = (run fromJson (doBatchRPC toJson w payloads gen) es).cbCalls) ∧
    ((run fromJson (doBatchRPC toJson w payloads gen) (es ++ [Event.timeout])).cbCalls
        = (run fromJson (doBatchRPC toJson w payloads gen) es).cbCalls
          ++ [(run fromJson (doBatchRPC toJson w payloads gen) es).responses]
      ↔ ((run fromJson (doBatchRPC toJson w payloads gen) es).waitTimer = TimerState.running ∧
         (run fromJson (doBatchRPC toJson w payloads gen) es).shutdownInProgress = false ∧
         QMap.size (run fromJson (doBatchRPC toJson w payloads gen) es).responses
           = payloads.length)) ∧
    (¬ ((run fromJson (doBatchRPC toJson w payloads gen) es).waitTimer = TimerState.running ∧
         (run fromJson (doBatchRPC toJson w payloads gen) es).shutdownInProgress = false ∧
         QMap.size (run fromJson (doBatchRPC toJson w payloads gen) es).responses
           = payloads.length) →
      (run fromJson (doBatchRPC toJson w payloads gen) (es ++ [Event.timeout])).cbCalls
        = (run fromJson (doBatchRPC toJson w payloads gen) es).cbCalls) ∧
    ((run fromJson (doBatchRPC toJson w payloads gen) es).shutdownInProgress = false →
      QMap.size (run fromJson (doBatchRPC toJson w payloads gen) es).responses
        < payloads.length →
      run fromJson (doBatchRPC toJson w payloads gen) (es ++ [Event.timeout])
        = run fromJson (doBatchRPC toJson w payloads gen) es) := by
  have hinv := inv_run fromJson _ es (inv_doBatchRPC toJson w payloads gen)
  have htot : (run fromJson (doBatchRPC toJson w payloads gen) es).totalSize
      = payloads.length := by
    rw [run_totalSize, doBatchRPC_totalSize]
  have htick : ∀ e, run fromJson (doBatchRPC toJson w payloads gen) (es ++ [e])
      = step fromJson (run fromJson (doBatchRPC toJson w payloads gen) es) e := by
    intro e
    rw [run_append]
    rfl
  generalize run fromJson (doBatchRPC toJson w payloads gen) es = s at hinv htot htick
  have hother : ¬ (s.waitTimer = TimerState.running ∧ s.shutdownInProgress = false ∧
      QMap.size s.responses = payloads.length) → (onTimeout s).cbCalls = s.cbCalls := by
    intro hnot
    by_cases hr : s.waitTimer = TimerState.running
    · by_cases hf : s.shutdownInProgress = true
      · rw [onTimeout_of_shutdown s hr hf]
      · have hf' : s.shutdownInProgress = false := by simpa using hf
        have hz : QMap.size s.responses ≠ s.totalSize := by
          rw [htot]
          exact fun hz => hnot ⟨hr, hf', hz⟩
        rw [onTimeout_of_pending s hf' hz]
    · rw [onTimeout_of_not_running s hr]
  refine ⟨hinv.cb_le, ?_, ?_, ?_, ?_⟩
  · intro e he
    rw [htick]
    exact (step_of_ne_timeout fromJson s e he).2.1
  · rw [htick]
    simp only [step]
    constructor
    · intro hcb
      by_contra hnot
      rw [hother hnot] at hcb
      have := congrArg List.length hcb
      simp at this
    · rintro ⟨hr, hf, hz⟩
      rw [onTimeout_of_complete s hr hf (by rw [htot]; exact hz)]
  · intro hnot
    rw [htick]
    exact hother hnot
  · intro hf hz
    rw [htick]
    simp only [step]
    exact onTimeout_of_pending s hf (by rw [htot]; exact ne_of_lt hz)

/-- C5: for every list of N ≥ 1 pairwise distinct items, the i-th request answered by
`replies[i]`, the shutdown flag never set, and every arrival order of the replies followed
by a poll tick: the callback receives one map `m`; its keys are exactly the input items; it
maps each item to the outcome of its own reply (`replyOutcome`: the empty JSON value on a
transport error or an empty parsed document, otherwise the `result` field of the parsed
body); and every other arrival order of the same replies delivers the same map. -/
theorem doBatchRPC_delivers_outcomes (toJson : QJsonDocument → QByteArray)
    (fromJson : QByteArray → QJsonDocument) (w : World) (payloads : List T)
    (gen : T → QJsonValue) (replies : List QNetworkReply) (pre post : List Event)
    (hN : 1 ≤ payloads.length) (hd : payloads.Nodup)
    (hlen : replies.length = payloads.length) (hw : w.shutdownInProgress = false)
    (hes : NoShutdown (pre ++ Event.timeout :: post))
    (harr : (arrivals pre).Perm replies.enum) :
    ∃ m, (run fromJson (doBatchRPC toJson w payloads gen)
        (pre ++ Event.timeout :: post)).cbCalls = [m] ∧
      (∀ k, k ∈ QMap.keys m ↔ k ∈ payloads) ∧
      (∀ (i : Nat) (item : T) (reply : QNetworkReply), payloads[i]? = some item →
        replies[i]? = some reply → QMap.find m item = some (replyOutcome fromJson reply)) ∧
      (∀ pre' post', NoShutdown (pre' ++ Event.timeout :: post') →
        (arrivals pre').Perm replies.enum →
        (run fromJson (doBatchRPC toJson w payloads gen)
          (pre' ++ Event.timeout :: post')).cbCalls = [m]) := by
  have hne : payloads ≠ [] := ne_nil_of_one_le payloads hN
  obtain ⟨m, hm, hsorted, hkeys, hvals⟩ := delivered_outcomes toJson fromJson w payloads gen
    replies pre post hne hd hlen hw (noShutdown_append _ _ hes).1 harr
  refine ⟨m, hm, hkeys, hvals, ?_⟩
  intro pre' post' hes' harr'
  obtain ⟨m', hm', hsorted', hkeys', hvals'⟩ := delivered_outcomes toJson fromJson w payloads
    gen replies pre' post' hne hd hlen hw (noShutdown_append _ _ hes').1 harr'
  rw [hm']
  congr 1
  apply QMap.ext_of_sorted m' m hsorted' hsorted
  intro x
  by_cases hx : x ∈ payloads
  · obtain ⟨i, hi⟩ := List.mem_iff_getElem?.mp hx
    have hlt : i < replies.length := by
      rw [hlen]
      by_contra hge
      rw [List.getElem?_eq_none (Nat.le_of_not_lt hge)] at hi
      cases hi
    rw [hvals' i x replies[i] hi (List.getElem?_eq_getElem hlt),
      hvals i x replies[i] hi (List.getElem?_eq_getElem hlt)]
  · rw [(QMap.find_eq_none_iff m' x).mpr (fun h => hx ((hkeys' x).mp h)),
      (QMap.find_eq_none_iff m x).mpr (fun h => hx ((hkeys x).mp h))]

theorem doBatchRPC_delivers_outcomes_witness :
    1 ≤ [7, 8].length ∧ [7, 8].Nodup ∧ [exReply, exError].length = [7, 8].length ∧
    exWorld.shutdownInProgress = false ∧
    NoShutdown ([Event.finished 1 exError, Event.timeout, Event.finished 0 exReply]
      ++ Event.timeout :: []) ∧
    (arrivals [Event.finished 1 exError, Event.timeout, Event.finished 0 exReply]).Perm
      [exReply, exError].enum ∧
    ∃ m, (run exFromJson (doBatchRPC exToJson exWorld [7, 8] exGen)
        ([Event.finished 1 exError, Event.timeout, Event.finished 0 exReply]
          ++ Event.timeout :: [])).cbCalls = [m] ∧
      (∀ k, k ∈ QMap.keys m ↔ k ∈ [7, 8]) ∧
      (∀ (i : Nat) (item : Nat) (reply : QNetworkReply), [7, 8][i]? = some item →
        [exReply, exError][i]? = some reply →
        QMap.find m item = some (replyOutcome exFromJson reply)) ∧
      (∀ pre' post', NoShutdown (pre' ++ Event.timeout :: post') →
        (arrivals pre').Perm [exReply, exError].enum →
        (run exFromJson (doBatchRPC exToJson exWorld [7, 8] exGen)
          (pre' ++ Event.timeout :: post')).cbCalls = [m]) :=
  ⟨by decide, by decide, rfl, rfl, by decide, by decide,
    doBatchRPC_delivers_outcomes exToJson exFromJson exWorld [7, 8] exGen [exReply, exError]
      [Event.finished 1 exError, Event.timeout, Event.finished 0 exReply] []
      (by decide) (by decide) rfl rfl (by decide) (by decide)⟩

/-- C8: `inProgress` lifecycle of one non-empty batch `first :: rest`: `method` is the string
`method` field of `payloadGenerator(first)`; when `doBatchRPC` returns, `inProgress[method]`
is true; a poll tick that finds the timer running, no shutdown and `responses` complete
invokes the callback and leaves `inProgress[method]` false, also after any later events; and
whatever the events, no entry under another key differs from the one before the call. -/
theorem doBatchRPC_inProgress_lifecycle (toJson : QJsonDocument → QByteArray)
    (fromJson : QByteArray → QJsonDocument) (w : World) (first : T) (rest : List T)
    (gen : T → QJsonValue) (es : List Event) :
    (doBatchRPC toJson w (first :: rest) gen).method
      = ((gen first).index "method".toList).toString ∧
    QMap.find (doBatchRPC toJson w (first :: rest) gen).inProgress
      ((gen first).index "method".toList).toString = some true ∧
    ((run fromJson (doBatchRPC toJson w (first :: rest) gen) es).waitTimer
        = TimerState.running →
      (run fromJson (doBatchRPC toJson w (first :: rest) gen) es).shutdownInProgress = false →
      QMap.size (run fromJson (doBatchRPC toJson w (first :: rest) gen) es).responses
        = (first :: rest).length →
      ∀ post,
        (run fromJson (doBatchRPC toJson w (first :: rest) gen)
          (es ++ Event.timeout :: post)).cbCalls
          = [(run fromJson (doBatchRPC toJson w (first :: rest) gen) es).responses] ∧
        QMap.find (run fromJson (doBatchRPC toJson w (first :: rest) gen)
          (es ++ Event.timeout :: post)).inProgress
          ((gen first).index "method".toList).toString = some false) ∧
    (∀ k, k ≠ ((gen first).index "method".toList).toString →
      QMap.find (run fromJson (doBatchRPC toJson w (first :: rest) gen) es).inProgress k
        = QMap.find w.inProgress k) := by
  have hne : first :: rest ≠ [] := by simp
  have hmeth := doBatchRPC_method toJson w first rest gen
  refine ⟨hmeth, ?_, ?_, ?_⟩
  · rw [doBatchRPC_find toJson w (first :: rest) gen hne, hmeth]
    simp
  · intro hr hf hz post
    have hcb := (run_running fromJson _ es hr).2.2
    rw [doBatchRPC_cbCalls] at hcb
    have hm : (run fromJson (doBatchRPC toJson w (first :: rest) gen) es).method
        = ((gen first).index "method".toList).toString := by
      rw [run_method, hmeth]
    have htot : (run fromJson (doBatchRPC toJson w (first :: rest) gen) es).totalSize
        = (first :: rest).length := by
      rw [run_totalSize, doBatchRPC_totalSize]
    rw [run_append, run_cons]
    have hstep := onTimeout_of_complete
      (run fromJson (doBatchRPC toJson w (first :: rest) gen) es) hr hf (by rw [htot]; exact hz)
    obtain ⟨-, h2, h3⟩ := run_of_not_running fromJson
      (step fromJson (run fromJson (doBatchRPC toJson w (first :: rest) gen) es) Event.timeout)
      post (by simp only [step]; rw [hstep]; simp)
    rw [h2, h3]
    simp only [step]
    rw [hstep]
    simp only [hcb, List.nil_append, hm, QMap.find_insert, if_true, and_self]
  · intro k hk
    rw [run_find_ne fromJson _ es k (by rw [hmeth]; exact hk),
      doBatchRPC_find toJson w (first :: rest) gen hne, hmeth, if_neg hk]

theorem doBatchRPC_inProgress_lifecycle_witness :
    QMap.find (doBatchRPC exToJson exWorld (7 :: [8]) exGen).inProgress
      "z_getbalance".toList = some true ∧
    (run exFromJson (doBatchRPC exToJson exWorld (7 :: [8]) exGen)
      ([Event.finished 1 exReply, Event.finished 0 exError] ++ Event.timeout :: [])).cbCalls
      = [(run exFromJson (doBatchRPC exToJson exWorld (7 :: [8]) exGen)
          [Event.finished 1 exReply, Event.finished 0 exError]).responses] ∧
    QMap.find (run exFromJson (doBatchRPC exToJson exWorld (7 :: [8]) exGen)
      ([Event.finished 1 exReply, Event.finished 0 exError] ++ Event.timeout :: [])).inProgress
      "z_getbalance".toList = some false :=
  ⟨(doBatchRPC_inProgress_lifecycle exToJson exFromJson exWorld 7 [8] exGen
      [Event.finished 1 exReply, Event.finished 0 exError]).2.1,
    (doBatchRPC_inProgress_lifecycle exToJson exFromJson exWorld 7 [8] exGen
      [Event.finished 1 exReply, Event.finished 0 exError]).2.2.1 rfl rfl rfl []⟩

/-- C9: if the payload list contains the same item at two positions, then after every
sequence of events `responses.size()` is at most the number of distinct items, which is
strictly less than the batch size; the completion callback has not been invoked; and, when
the shutdown flag is never set, the poll timer is still running. -/
theorem doBatchRPC_duplicates_never_complete (toJson : QJsonDocument → QByteArray)
    (fromJson : QByteArray → QJsonDocument) (w : World) (payloads : List T)
    (gen : T → QJsonValue) (es : List Event) (hdup : ¬ payloads.Nodup) :
    QMap.size (run fromJson (doBatchRPC toJson w payloads gen) es).responses
      ≤ payloads.dedup.length ∧
    payloads.dedup.length < payloads.length ∧
    (run fromJson (doBatchRPC toJson w payloads gen) es).cbCalls = [] ∧
    (w.shutdownInProgress = false → NoShutdown es →
      (run fromJson (doBatchRPC toJson w payloads gen) es).waitTimer
        = TimerState.running) := by
  have hinv₀ := inv_doBatchRPC toJson w payloads gen
  have hinv := inv_run fromJson _ es hinv₀
  have hitems : (run fromJson (doBatchRPC toJson w payloads gen) es).items = payloads := by
    rw [run_items, doBatchRPC_items]
  have hlt := dedup_length_lt payloads hdup
  have hne : payloads ≠ [] := by
    intro h
    rw [h] at hdup
    exact hdup List.nodup_nil
  refine ⟨?_, hlt, ?_, ?_⟩
  · have := size_le_dedup _ _ hinv.sorted hinv.keys_sub
    rw [hitems] at this
    exact this
  · apply List.eq_nil_iff_forall_not_mem.mpr
    intro m hm
    obtain ⟨hs, hk, hz⟩ := hinv.cb_map m hm
    have := size_le_dedup m _ hs hk
    rw [hz, hitems] at this
    exact absurd this (not_le.mpr hlt)
  · intro hw hes
    exact run_running_of_dup fromJson _ es hinv₀
      (by rw [doBatchRPC_items]; exact hdup)
      (by rw [doBatchRPC_shutdown]; exact hw) hes
      (doBatchRPC_waitTimer toJson w payloads gen hne)

theorem doBatchRPC_duplicates_never_complete_witness :
    ¬ [7, 8, 7].Nodup ∧
    QMap.size (run exFromJson (doBatchRPC exToJson exWorld [7, 8, 7] exGen)
      [Event.finished 0 exReply, Event.finished 1 exReply, Event.finished 2 exReply,
        Event.timeout]).responses ≤ [7, 8, 7].dedup.length ∧
    [7, 8, 7].dedup.length < [7, 8, 7].length ∧
    (run exFromJson (doBatchRPC exToJson exWorld [7, 8, 7] exGen)
      [Event.finished 0 exReply, Event.finished 1 exReply, Event.finished 2 exReply,
        Event.timeout]).cbCalls = [] ∧
    (exWorld.shutdownInProgress = false →
      NoShutdown [Event.finished 0 exReply, Event.finished 1 exReply,
        Event.finished 2 exReply, Event.timeout] →
      (run exFromJson (doBatchRPC exToJson exWorld [7, 8, 7] exGen)
        [Event.finished 0 exReply, Event.finished 1 exReply, Event.finished 2 exReply,
          Event.timeout]).waitTimer = TimerState.running) :=
  ⟨by decide,
    doBatchRPC_duplicates_never_complete exToJson exFromJson exWorld [7, 8, 7] exGen
      [Event.finished 0 exReply, Event.finished 1 exReply, Event.finished 2 exReply,
        Event.timeout] (by decide)⟩

/-- C10: a batch of N ≥ 1 items that is aborted because a poll tick finds the shutdown flag
set (the timer still running) never resets its entry of the `inProgress` table: the tick
stops the timer, and after it, and after any later events, `inProgress[method]` is still
true. -/
theorem doBatchRPC_abort_keeps_inProgress (toJson : QJsonDocument → QByteArray)
    (fromJson : QByteArray → QJsonDocument) (w : World) (payloads : List T)
    (gen : T → QJsonValue) (pre post : List Event) (hN : 1 ≤ payloads.length)
    (hf : (run fromJson (doBatchRPC toJson w payloads gen) pre).shutdownInProgress = true)
    (hr : (run fromJson (doBatchRPC toJson w payloads gen) pre).waitTimer
      = TimerState.running) :
    (run fromJson (doBatchRPC toJson w payloads gen) (pre ++ [Event.timeout])).waitTimer
      = TimerState.stopped ∧
    (run fromJson (doBatchRPC toJson w payloads gen) (pre ++ [Event.timeout])).cbCalls = [] ∧
    QMap.find (run fromJson (doBatchRPC toJson w payloads gen)
      (pre ++ [Event.timeout])).inProgress (doBatchRPC toJson w payloads gen).method
      = some true ∧
    QMap.find (run fromJson (doBatchRPC toJson w payloads gen)
      (pre ++ Event.timeout :: post)).inProgress (doBatchRPC toJson w payloads gen).method
      = some true := by
  have hne : payloads ≠ [] := ne_nil_of_one_le payloads hN
  obtain ⟨-, hin, hcb⟩ := run_running fromJson _ pre hr
  rw [doBatchRPC_cbCalls] at hcb
  have hstep : step fromJson (run fromJson (doBatchRPC toJson w payloads gen) pre) Event.timeout
      = { run fromJson (doBatchRPC toJson w payloads gen) pre with
          waitTimer := TimerState.stopped } := onTimeout_of_shutdown _ hr hf
  have hfind : QMap.find (run fromJson (doBatchRPC toJson w payloads gen) pre).inProgress
      (doBatchRPC toJson w payloads gen).method = some true := by
    rw [hin, doBatchRPC_find toJson w payloads gen hne]
    simp
  have h1 : run fromJson (doBatchRPC toJson w payloads gen) (pre ++ [Event.timeout])
      = step fromJson (run fromJson (doBatchRPC toJson w payloads gen) pre) Event.timeout := by
    rw [run_append]
    rfl
  refine ⟨?_, ?_, ?_, ?_⟩
  · rw [h1, hstep]
  · rw [h1, hstep]
    exact hcb
  · rw [h1, hstep]
    exact hfind
  · rw [run_append, run_cons]
    obtain ⟨-, -, h3⟩ := run_of_not_running fromJson
      (step fromJson (run fromJson (doBatchRPC toJson w payloads gen) pre) Event.timeout) post
      (by rw [hstep]; simp)
    rw [h3, hstep]
    exact hfind

theorem doBatchRPC_abort_keeps_inProgress_witness :
    1 ≤ [7, 8].length ∧
    (run exFromJson (doBatchRPC exToJson exWorld [7, 8] exGen)
      [Event.finished 0 exReply, Event.shutdown]).shutdownInProgress = true ∧
    (run exFromJson (doBatchRPC exToJson exWorld [7, 8] exGen)
      [Event.finished 0 exReply, Event.shutdown]).waitTimer = TimerState.running ∧
    (run exFromJson (doBatchRPC exToJson exWorld [7, 8] exGen)
      ([Event.finished 0 exReply, Event.shutdown] ++ [Event.timeout])).waitTimer
      = TimerState.stopped ∧
    QMap.find (run exFromJson (doBatchRPC exToJson exWorld [7, 8] exGen)
      ([Event.finished 0 exReply, Event.shutdown] ++ Event.timeout ::
        [Event.finished 1 exReply, Event.timeout])).inProgress
      (doBatchRPC exToJson exWorld [7, 8] exGen).method = some true :=
  ⟨by decide, rfl, rfl,
    (doBatchRPC_abort_keeps_inProgress exToJson exFromJson exWorld [7, 8] exGen
      [Event.finished 0 exReply, Event.shutdown] [Event.finished 1 exReply, Event.timeout]
      (by decide) rfl rfl).1,
    (doBatchRPC_abort_keeps_inProgress exToJson exFromJson exWorld [7, 8] exGen
      [Event.finished 0 exReply, Event.shutdown] [Event.finished 1 exReply, Event.timeout]
      (by decide) rfl rfl).2.2.2⟩

end SilentDragon
